import Mathlib

set_option autoImplicit false

/-!
Shallow embedding of the WASL processing pipeline
(`src/scripts/wasl_processor.py` and `src/scripts/get_WLASL.py`).

Times are modelled as integers (the pipeline only compares them), file
systems as explicit maps or lists of file names, and the external
collaborators (video fetcher, moviepy segmentation, the pose binary) as
oracles passed in as functions, so every code path of the Python source
is represented by a total Lean function.
-/

/-- A raw record of the `annotations.json` file consumed by
`_process_WASL_structure`.  Each field is `Option`al: `entry.get(k)` /
`entry.get(k, default)` yield the default when the key is absent. -/
structure RawRecord where
  video_id : Option String
  word : Option String
  start_time : Option Int
  end_time : Option Int
  deriving DecidableEq, Repr

/-- A canonical metadata entry, as written by `_process_WASL_structure`
and stored in `wasl_metadata.json`. -/
structure MetadataEntry where
  video_id : String
  word : String
  start_time : Int
  end_time : Int
  deriving DecidableEq, Repr

/-- The normalization loop of `_process_WASL_structure`
(`wasl_processor.py` lines 103-120): skip an entry whose `video_id` is
absent or empty (Python falsiness of `entry.get('video_id')`); read
`word`, `start_time`, `end_time` with defaults `''`, `0`, `0`; keep the
entry iff `word` is non-empty (truthy) and `start_time < end_time`;
output preserves input order. -/
def process_WASL_structure : List RawRecord → List MetadataEntry
  | [] => []
  | entry :: rest =>
    let video_id := entry.video_id.getD ""
    if video_id = "" then
      process_WASL_structure rest
    else
      let word := entry.word.getD ""
      let start_time := entry.start_time.getD 0
      let end_time := entry.end_time.getD 0
      if word ≠ "" ∧ start_time < end_time then
        { video_id := video_id, word := word,
          start_time := start_time, end_time := end_time } :: process_WASL_structure rest
      else
        process_WASL_structure rest

/-- The keep-condition exactly as the spec's claim words it: `video_id`
and `word` non-empty, and `start_time` strictly below `end_time`, with
`start_time` and `end_time` defaulting to `0` when absent. -/
def claimKeep (r : RawRecord) : Bool :=
  (r.video_id.getD "" != "") && (r.word.getD "" != "")
    && (r.start_time.getD 0 < r.end_time.getD 0)

/-- The canonical entry a raw record normalizes to. -/
def canonical (r : RawRecord) : MetadataEntry :=
  { video_id := r.video_id.getD "", word := r.word.getD "",
    start_time := r.start_time.getD 0, end_time := r.end_time.getD 0 }

/-- C1: the canonical metadata output of normalization is exactly the
input sequence filtered by "`video_id` and `word` non-empty and
`start_time < end_time` (both defaulting to 0 when absent)", in input
order; hence a record is present in the output iff it satisfies that
condition, and kept entries keep their relative order. -/
theorem process_WASL_structure_eq_filter (rs : List RawRecord) :
    process_WASL_structure rs = (rs.filter claimKeep).map canonical := by
  induction rs with
  | nil => rfl
  | cons r rest ih =>
    by_cases hv : r.video_id.getD "" = ""
    · have hk : claimKeep r = false := by
        simp [claimKeep, hv]
      simp [process_WASL_structure, hv, List.filter, hk, ih]
    · by_cases hw : r.word.getD "" = ""
      · have hk : claimKeep r = false := by
          simp [claimKeep, hw]
        simp [process_WASL_structure, hv, hw, List.filter, hk, ih]
      · by_cases ht : r.start_time.getD 0 < r.end_time.getD 0
        · have hk : claimKeep r = true := by
            simp [claimKeep, hv, hw, ht]
          simp [process_WASL_structure, hv, hw, ht, List.filter, hk, ih, canonical]
        · have hk : claimKeep r = false := by
            simp [claimKeep, ht]
          simp [process_WASL_structure, hv, hw, ht, List.filter, hk, ih]


/-- A Python `dict` keyed by strings, modelled by its key-to-value map
(no claim in view depends on key iteration order, only on lookup). -/
def PyDict (α : Type) : Type := String → Option α

/-- The empty dict `{}`. -/
def dictEmpty {α : Type} : PyDict α := fun _ => none

/-- Assignment `d[k] = v`: later assignments to the same key overwrite
earlier ones. -/
def dictInsert {α : Type} (d : PyDict α) (k : String) (v : α) : PyDict α :=
  fun q => if q = k then some v else d q

/-- Key lookup `d.get(k)`. -/
def dictLookup {α : Type} (d : PyDict α) (k : String) : Option α := d k

theorem find?_eq_filter_head? {α : Type} (p : α → Bool) (l : List α) :
    l.find? p = (l.filter p).head? := by
  induction l with
  | nil => rfl
  | cons a l ih =>
    by_cases h : p a = true
    · rw [List.find?_cons_of_pos _ h, List.filter_cons_of_pos h]
      rfl
    · rw [List.find?_cons_of_neg _ h, List.filter_cons_of_neg h, ih]

/-- The mapping-building part of `_get_word_timestamps`
(`wasl_processor.py` lines 140-156): filter the loaded entries to the
given `video_id`, then fill a fresh dict `word -> (start_time, end_time)`
in stored order.  (When no entry matches, the code returns `{}` after a
warning; the fold over the empty filtered list yields the same value.) -/
def word_timestamps_from (entries : List MetadataEntry) (video_id : String) :
    PyDict (Int × Int) :=
  (entries.filter (fun e => e.video_id == video_id)).foldl
    (fun d e => dictInsert d e.word (e.start_time, e.end_time)) dictEmpty

theorem dictLookup_foldl_insert (es : List MetadataEntry) (d : PyDict (Int × Int))
    (w : String) :
    dictLookup (es.foldl (fun d e => dictInsert d e.word (e.start_time, e.end_time)) d) w
      = (match es.reverse.find? (fun e => e.word == w) with
          | some e => some (e.start_time, e.end_time)
          | none => dictLookup d w) := by
  induction es generalizing d with
  | nil => rfl
  | cons e es ih =>
    rw [List.foldl_cons, ih, List.reverse_cons, List.find?_append]
    by_cases h : e.word = w
    · cases hfind : es.reverse.find? (fun e => e.word == w) <;>
        simp [hfind, Option.or, List.find?, h, dictLookup, dictInsert]
    · have hb : (e.word == w) = false := beq_eq_false_iff_ne.mpr h
      have hw : ¬ w = e.word := fun hc => h hc.symm
      cases hfind : es.reverse.find? (fun e => e.word == w) <;>
        simp [hfind, Option.or, List.find?, hb, hw, dictLookup, dictInsert]

/-- C6: the word-to-interval mapping built for a `video_id` binds a word
`w` exactly to the `(start_time, end_time)` interval of the LAST stored
entry whose `video_id` matches the argument and whose word is `w`
(last-write-wins); in particular a word with no matching entry is
unbound, so the mapping contains only words of entries whose `video_id`
matches. -/
theorem word_timestamps_last_write_wins (es : List MetadataEntry) (vid w : String) :
    dictLookup (word_timestamps_from es vid) w
      = ((es.filter (fun e => e.video_id == vid && e.word == w)).getLast?).map
          (fun e => (e.start_time, e.end_time)) := by
  have hcomm : (fun (e : MetadataEntry) => e.video_id == vid && e.word == w)
      = fun e => (e.word == w) && (e.video_id == vid) := by
    funext e
    exact Bool.and_comm _ _
  rw [word_timestamps_from, dictLookup_foldl_insert,
    find?_eq_filter_head?, List.getLast?_eq_head?_reverse, hcomm,
    ← List.filter_reverse, ← List.filter_reverse, List.filter_filter]
  cases h : (es.reverse.filter (fun e => (e.word == w) && (e.video_id == vid))).head? with
  | none => simp [h, dictLookup, dictEmpty]
  | some e => simp [h]

/-- The `metadata_cache` attribute of `WASLProcessor`: the `{}` it is
initialized to in `__init__`, or the list that `json.load` returns when
`_get_word_timestamps` assigns `self.metadata_cache = json.load(f)`
(`wasl_metadata.json` holds a JSON ARRAY of entries, as written by
`_process_WASL_structure`). -/
inductive MetadataCache where
  | emptyDict : MetadataCache
  | loadedList : List MetadataEntry → MetadataCache
  deriving DecidableEq, Repr

/-- Python `==` between a `str` and a `dict` (a metadata entry): always
`False` (no cross-type equality). -/
def pyStrEqDict (_ : String) (_ : MetadataEntry) : Bool := false

/-- Python `video_id in self.metadata_cache`: a key test on the initial
`{}`, an element-membership test once the cache holds the loaded list
(where each element is a dict, never equal to the string). -/
def cacheContains (video_id : String) : MetadataCache → Bool
  | .emptyDict => false
  | .loadedList entries => entries.any (pyStrEqDict video_id)

/-- The entries the mapping-building loop iterates over
(`for entry in self.metadata_cache`): none for the initial `{}`. -/
def cacheEntries : MetadataCache → List MetadataEntry
  | .emptyDict => []
  | .loadedList entries => entries

/-- One call to `_get_word_timestamps` (`wasl_processor.py` lines
129-156), with the metadata artifact on disk modelled as
`fsMeta : Option (List MetadataEntry)` (`none` = file missing).
Returns the new cache, the number of disk reads this call performed
(0 or 1), and the word-to-interval mapping; `Except.error ()` models the
`FileNotFoundError` raised when the artifact must be loaded but is
missing. -/
def get_word_timestamps (fsMeta : Option (List MetadataEntry))
    (cache : MetadataCache) (video_id : String) :
    Except Unit (MetadataCache × Nat × PyDict (Int × Int)) :=
  if cacheContains video_id cache then
    Except.ok (cache, 0, word_timestamps_from (cacheEntries cache) video_id)
  else
    match fsMeta with
    | none => Except.error ()
    | some entries =>
      Except.ok (.loadedList entries, 1, word_timestamps_from entries video_id)

/-- A sequence of `_get_word_timestamps` calls in one process, threading
the cache and summing the disk reads; `none` if some call raised. -/
def runTimestampCalls (fsMeta : Option (List MetadataEntry)) :
    MetadataCache → List String → Option (MetadataCache × Nat)
  | cache, [] => some (cache, 0)
  | cache, video_id :: rest =>
    match get_word_timestamps fsMeta cache video_id with
    | .error _ => none
    | .ok (cache', reads, _) =>
      (runTimestampCalls fsMeta cache' rest).map (fun p => (p.1, reads + p.2))

theorem cacheContains_eq_false (video_id : String) (cache : MetadataCache) :
    cacheContains video_id cache = false := by
  cases cache with
  | emptyDict => rfl
  | loadedList entries =>
    simp [cacheContains, pyStrEqDict]

/-- C2: the metadata artifact is re-read from disk on EVERY call to
`_get_word_timestamps`, not at most once: the guard
`video_id not in self.metadata_cache` compares the string against the
initial `{}` (no keys) or against the loaded list of entry dicts (a
string never equals a dict), so it is always true and each of `n` calls
performs one disk read. -/
theorem get_word_timestamps_rereads_every_call
    (entries : List MetadataEntry) (cache : MetadataCache) (calls : List String) :
    runTimestampCalls (some entries) cache calls
      = some ((if calls.isEmpty then cache else .loadedList entries), calls.length) := by
  induction calls generalizing cache with
  | nil => rfl
  | cons video_id rest ih =>
    rw [runTimestampCalls, get_word_timestamps]
    rw [cacheContains_eq_false]
    simp only [Bool.false_eq_true, if_false]
    rw [ih]
    cases rest <;> simp [List.isEmpty, Nat.add_comm]

/-- Outcome of `split_video_into_words`: either the returned
`word_clips` list (normal return, reached only after the loop and
`video.close()`), or an exception propagating out of the per-word
loop. -/
inductive SplitOutcome where
  | ok : List (String × String) → SplitOutcome
  | raised : SplitOutcome
  deriving DecidableEq, Repr

/-- Trace of one `split_video_into_words` call: the words whose
segmentation was started, the outcome, and whether `video.close()`
ran. -/
structure SplitTrace where
  attempted : List String
  outcome : SplitOutcome
  closed : Bool
  deriving DecidableEq, Repr

/-- The per-word loop of `split_video_into_words` (`wasl_processor.py`
lines 181-193), iterating the `word_timestamps` dict items in insertion
order.  `segOk w = false` models `video.subclip` or
`clip.write_videofile` raising on word `w`.  The loop body has no
`try`/`except`: a raise propagates at once (no later word is attempted
and nothing is returned) and skips the `video.close()` that only
follows the loop. -/
def splitLoop (stem : String) (segOk : String → Bool) :
    List (String × Int × Int) → List String → List (String × String) → SplitTrace
  | [], attempted, word_clips => ⟨attempted, .ok word_clips, true⟩
  | (word, _, _) :: rest, attempted, word_clips =>
    if segOk word then
      splitLoop stem segOk rest (attempted ++ [word])
        (word_clips ++ [(word, stem ++ "_" ++ word ++ ".mp4")])
    else
      ⟨attempted ++ [word], .raised, false⟩

/-- `split_video_into_words(video_path, word_timestamps)`, with the
moviepy handle abstracted by the per-word oracle `segOk` and the video
path by its stem. -/
def split_video_into_words (stem : String) (segOk : String → Bool)
    (word_timestamps : List (String × Int × Int)) : SplitTrace :=
  splitLoop stem segOk word_timestamps [] []

/-- C3 counterexample: with words `a`, `b`, `c` where segmenting `b`
raises, word `c` is never attempted and no clip list (in particular not
the successful `a` clip) is returned — the exception propagates. -/
theorem split_abort_counterexample :
    ((split_video_into_words "v" (fun w => !(w == "b"))
        [("a", 0, 1), ("b", 1, 2), ("c", 2, 3)]).outcome = SplitOutcome.raised)
    ∧ ("c" ∉ (split_video_into_words "v" (fun w => !(w == "b"))
        [("a", 0, 1), ("b", 1, 2), ("c", 2, 3)]).attempted) := by
  decide

theorem splitLoop_stops_at_first_failure (stem : String) (segOk : String → Bool)
    (pre : List (String × Int × Int)) (word : String) (s e : Int)
    (rest : List (String × Int × Int)) (attempted : List String)
    (word_clips : List (String × String))
    (hpre : ∀ q ∈ pre, segOk q.1 = true) (hw : segOk word = false) :
    splitLoop stem segOk (pre ++ (word, s, e) :: rest) attempted word_clips
      = ⟨attempted ++ pre.map (fun q => q.1) ++ [word], .raised, false⟩ := by
  induction pre generalizing attempted word_clips with
  | nil => simp [splitLoop, hw]
  | cons q pre ih =>
    have hq : segOk q.1 = true := hpre q (List.mem_cons_self q pre)
    obtain ⟨qw, qs, qe⟩ := q
    simp only [List.cons_append, splitLoop, hq, if_true, List.append_eq]
    rw [ih _ _ (fun r hr => hpre r (List.mem_cons_of_mem _ hr))]
    simp

/-- C3 amended: a failure on one word's segmentation aborts the whole
call: if every word before `word` segments fine and `word`'s
segmentation raises, the raise propagates — the words after `word` are
never attempted and no clip list (not even the already-produced clips)
is returned. -/
theorem split_failure_aborts_video (stem : String) (segOk : String → Bool)
    (pre : List (String × Int × Int)) (word : String) (s e : Int)
    (rest : List (String × Int × Int))
    (hpre : ∀ q ∈ pre, segOk q.1 = true) (hw : segOk word = false) :
    split_video_into_words stem segOk (pre ++ (word, s, e) :: rest)
      = ⟨pre.map (fun q => q.1) ++ [word], .raised, false⟩ := by
  rw [split_video_into_words, splitLoop_stops_at_first_failure stem segOk pre word s e rest [] [] hpre hw]
  simp

/-- Witness for `split_failure_aborts_video` at a concrete input. -/
theorem split_failure_aborts_video_witness :
    split_video_into_words "v2" (fun w => !(w == "b"))
        [("a", 0, 1), ("b", 1, 2), ("c", 2, 3)]
      = ⟨["a", "b"], .raised, false⟩ :=
  split_failure_aborts_video "v2" (fun w => !(w == "b")) [("a", 0, 1)] "b" 1 2
    [("c", 2, 3)] (by decide) (by decide)

/-- C4 counterexample: when segmentation of the only word raises,
`video.close()` is not reached — the handle is not released on that
exit path. -/
theorem split_leaks_handle_counterexample :
    (split_video_into_words "u" (fun _ => false) [("x", 0, 1)]).closed = false := by
  decide

theorem splitLoop_closed_iff (stem : String) (segOk : String → Bool)
    (wts : List (String × Int × Int)) (attempted : List String)
    (word_clips : List (String × String)) :
    (splitLoop stem segOk wts attempted word_clips).closed = true
      ↔ ∀ q ∈ wts, segOk q.1 = true := by
  induction wts generalizing attempted word_clips with
  | nil => simp [splitLoop]
  | cons q wts ih =>
    obtain ⟨qw, qs, qe⟩ := q
    by_cases hq : segOk qw = true
    · simp [splitLoop, hq, ih]
    · simp [splitLoop, hq]

/-- C4 amended: the source-video handle is released iff the call exits
normally: `video.close()` runs exactly when every word's segmentation
succeeds; on the exit path where a word's segmentation raises, the
handle is not released. -/
theorem split_closes_handle_iff_no_failure (stem : String) (segOk : String → Bool)
    (word_timestamps : List (String × Int × Int)) :
    (split_video_into_words stem segOk word_timestamps).closed = true
      ↔ ∀ q ∈ word_timestamps, segOk q.1 = true :=
  splitLoop_closed_iff stem segOk word_timestamps [] []

/-- Failure modes of `create_word_pose_mapping`: `json.load` raising on
an existing pose file inside the loop (uncaught), or the final
open/`json.dump` of the mapping artifact failing. -/
inductive JoinError where
  | parseError : JoinError
  | writeError : JoinError
  deriving DecidableEq, Repr

/-- The loop of `create_word_pose_mapping` (`wasl_processor.py` lines
214-230) over the metadata entries.  The pose directory is modelled by
`fs`: `fs video_id = none` means `poses/{video_id}.json` does not exist
(the entry is skipped, no binding, no error); `some none` means the
file exists but `json.load` raises — there is no `try`/`except`, so the
exception propagates; `some (some p)` means it parses to `p`, which is
bound to the entry's word (overwriting any earlier binding).  After the
loop the mapping artifact is written; `writable = false` models a
disk/permission failure of that final write. -/
def joinLoop {α : Type} (fs : String → Option (Option α)) (writable : Bool) :
    List MetadataEntry → PyDict α → Except JoinError (PyDict α)
  | [], mapping => if writable then .ok mapping else .error .writeError
  | e :: rest, mapping =>
    match fs e.video_id with
    | none => joinLoop fs writable rest mapping
    | some none => .error .parseError
    | some (some p) => joinLoop fs writable rest (dictInsert mapping e.word p)

/-- `create_word_pose_mapping(metadata)` starting from the empty
`mapping = {}`. -/
def create_word_pose_mapping {α : Type} (fs : String → Option (Option α))
    (writable : Bool) (metadata : List MetadataEntry) : Except JoinError (PyDict α) :=
  joinLoop fs writable metadata dictEmpty

/-- C5 counterexample: one metadata entry whose pose file exists but is
not parseable makes the whole join fail with the propagated parse
error, even though the destination is perfectly writable — the parse
failure is not skipped with a warning. -/
theorem join_parse_failure_counterexample :
    create_word_pose_mapping (fun _ => (some none : Option (Option Nat))) true
        [⟨"v1", "hi", 0, 1⟩]
      = Except.error JoinError.parseError := rfl

theorem joinLoop_error_iff {α : Type} (fs : String → Option (Option α))
    (writable : Bool) (md : List MetadataEntry) (mapping : PyDict α) :
    (∃ err, joinLoop fs writable md mapping = Except.error err)
      ↔ (∃ e ∈ md, fs e.video_id = some none) ∨ writable = false := by
  induction md generalizing mapping with
  | nil =>
    cases writable <;> simp [joinLoop]
  | cons e rest ih =>
    cases hfs : fs e.video_id with
    | none => simp [joinLoop, hfs, ih]
    | some po =>
      cases po with
      | none => simp [joinLoop, hfs]
      | some p => simp [joinLoop, hfs, ih]

/-- C5 amended: the join fails iff the destination artifact cannot be
written OR some metadata entry's pose file exists but is not parseable
as JSON; an unparseable pose file is not skipped — its `json.load`
exception propagates and makes the whole join fail. -/
theorem join_error_iff {α : Type} (fs : String → Option (Option α))
    (writable : Bool) (metadata : List MetadataEntry) :
    (∃ err, create_word_pose_mapping fs writable metadata = Except.error err)
      ↔ (∃ e ∈ metadata, fs e.video_id = some none) ∨ writable = false :=
  joinLoop_error_iff fs writable metadata dictEmpty

/-- C7 counterexample: the first entry's word is `hi` and its pose file
`poses/v1.json` does not exist, yet `hi` is present in the final
mapping, bound to the pose data of the second entry (same word, video
`v2`, whose file exists) — contradicting "the entry's word is absent
from the final mapping". -/
theorem join_missing_pose_counterexample :
    (create_word_pose_mapping
        (fun vid => if vid = "v2" then some (some (7 : Nat)) else none) true
        [⟨"v1", "hi", 0, 1⟩, ⟨"v2", "hi", 2, 3⟩]).map (fun m => dictLookup m "hi")
      = Except.ok (some 7) := rfl

theorem joinLoop_lookup_none_iff {α : Type} (fs : String → Option (Option α))
    (md : List MetadataEntry) (mapping : PyDict α) (w : String)
    (hparse : ∀ e ∈ md, fs e.video_id ≠ some none) :
    ((joinLoop fs true md mapping).map (fun m => dictLookup m w) = Except.ok none)
      ↔ (dictLookup mapping w = none ∧ ∀ e ∈ md, e.word = w → fs e.video_id = none) := by
  induction md generalizing mapping with
  | nil => simp [joinLoop, Except.map]
  | cons e rest ih =>
    cases hfs : fs e.video_id with
    | none =>
      rw [joinLoop, hfs]
      rw [ih mapping (fun q hq => hparse q (List.mem_cons_of_mem _ hq))]
      simp [hfs]
    | some po =>
      cases po with
      | none => exact absurd hfs (hparse e (List.mem_cons_self e rest))
      | some p =>
        rw [joinLoop, hfs]
        rw [ih (dictInsert mapping e.word p)
          (fun q hq => hparse q (List.mem_cons_of_mem _ hq))]
        by_cases hww : w = e.word
        · simp [dictLookup, dictInsert, hww, hfs]
        · have : ¬ e.word = w := fun hc => hww hc.symm
          simp [dictLookup, dictInsert, hww, this]

/-- C7 amended: provided no pose file is unparseable, the join
succeeds, and a word is absent from the final mapping iff EVERY
metadata entry carrying that word has a missing pose file; in
particular an entry whose pose file is missing contributes no binding,
no placeholder and no error, but its word can still appear in the
mapping through another entry with the same word whose pose file
exists. -/
theorem join_word_absent_iff_all_pose_missing {α : Type}
    (fs : String → Option (Option α)) (metadata : List MetadataEntry) (w : String)
    (hparse : ∀ e ∈ metadata, fs e.video_id ≠ some none) :
    ((create_word_pose_mapping fs true metadata).map (fun m => dictLookup m w)
        = Except.ok none)
      ↔ (∀ e ∈ metadata, e.word = w → fs e.video_id = none) := by
  rw [create_word_pose_mapping, joinLoop_lookup_none_iff fs metadata dictEmpty w hparse]
  simp [dictLookup, dictEmpty]

/-- Witness for `join_word_absent_iff_all_pose_missing` at a concrete
input: one entry with word `hi` and a missing pose file; `hi` is absent
from the final mapping. -/
theorem join_word_absent_witness :
    ((create_word_pose_mapping (fun _ => (none : Option (Option Nat))) true
        [⟨"v1", "hi", 0, 1⟩]).map (fun m => dictLookup m "hi") = Except.ok none)
      ↔ (∀ e ∈ [(⟨"v1", "hi", 0, 1⟩ : MetadataEntry)], e.word = "hi" →
          (fun _ => (none : Option (Option Nat))) e.video_id = none) :=
  join_word_absent_iff_all_pose_missing (fun _ => none) [⟨"v1", "hi", 0, 1⟩] "hi"
    (by simp)

theorem string_append_left_cancel (s t u : String) (h : s ++ t = s ++ u) : t = u := by
  have hd : (s ++ t).data = (s ++ u).data := by rw [h]
  rw [String.data_append, String.data_append] at hd
  exact String.ext (List.append_cancel_left hd)

theorem ext_filename_ne (video_id ext : String) (hne : ext ≠ "mp4") :
    video_id ++ "." ++ ext ≠ video_id ++ ".mp4" := by
  intro h
  rw [String.append_assoc] at h
  have h1 : "." ++ ext = ".mp4" := string_append_left_cancel video_id _ _ h
  have h2 : "." ++ ext = "." ++ "mp4" := h1
  exact hne (string_append_left_cancel "." ext "mp4" h2)

/-- The per-entry body of the `download_wasl_videos` loop
(`wasl_processor.py` lines 173-179): invoke the fetch only when
`videos_dir/{video_id}.mp4` is missing.  The videos directory is the
list `files` of file names.  `saveExt video_id = some ext` models a
successful `ydl.download` whose output template `'%(id)s.%(ext)s'`
saves `{video_id}.{ext}`; `none` models the fetch raising (caught by
the `except` around the body, logged, loop continues).  Returns the new
file set and the number of fetch invocations (0 or 1). -/
def downloadEntry (saveExt : String → Option String) (files : List String)
    (video_id : String) : List String × Nat :=
  if files.contains (video_id ++ ".mp4") then
    (files, 0)
  else
    match saveExt video_id with
    | some ext => ((video_id ++ "." ++ ext) :: files, 1)
    | none => (files, 1)

/-- The batch loop of `download_wasl_videos` over the metadata list,
threading the file set and summing the fetch invocations. -/
def download_wasl_videos (saveExt : String → Option String) (files : List String)
    (metadata : List MetadataEntry) : List String × Nat :=
  metadata.foldl
    (fun st e =>
      let r := downloadEntry saveExt st.1 e.video_id
      (r.1, st.2 + r.2))
    (files, 0)

/-- C8 counterexample: acquiring the same video twice triggers the
external fetch TWICE when the fetcher saves the file under a non-mp4
extension (`yt_dlp`'s `'%(id)s.%(ext)s'` template allows this): the
first fetch saves `v1.webm`, so `v1.mp4` is still missing at the second
acquisition, which fetches again — more than "at most once". -/
theorem download_twice_counterexample :
    ¬ ((download_wasl_videos (fun _ => some "webm") []
        [⟨"v1", "hello", 0, 1⟩, ⟨"v1", "hello", 0, 1⟩]).2 ≤ 1) := by
  decide

/-- C8 amended: if `{video_id}.mp4` already exists, acquisition returns
at once with no fetch; and acquiring the same video twice triggers the
fetch at most once PROVIDED the first acquisition leaves
`{video_id}.mp4` present (it already existed, or the fetch saved it
with extension `mp4`) — with any other saved extension the fetch can
repeat, as the counterexample shows. -/
theorem download_at_most_one_fetch_when_mp4_present
    (saveExt : String → Option String) (files : List String) (video_id : String) :
    (files.contains (video_id ++ ".mp4") = true →
      downloadEntry saveExt files video_id = (files, 0))
    ∧ ((downloadEntry saveExt files video_id).1.contains (video_id ++ ".mp4") = true →
        (downloadEntry saveExt files video_id).2
          + (downloadEntry saveExt (downloadEntry saveExt files video_id).1 video_id).2
          ≤ 1) := by
  have hzero : ∀ g : List String, g.contains (video_id ++ ".mp4") = true →
      downloadEntry saveExt g video_id = (g, 0) := by
    intro g hg
    have hm : video_id ++ ".mp4" ∈ g := by simpa using hg
    simp [downloadEntry, hm]
  constructor
  · exact hzero files
  · intro h
    rw [hzero _ h]
    by_cases hc : files.contains (video_id ++ ".mp4") = true
    · have hm : video_id ++ ".mp4" ∈ files := by simpa using hc
      simp [downloadEntry, hm]
    · have hm : video_id ++ ".mp4" ∉ files := by simpa using hc
      cases hse : saveExt video_id <;> simp [downloadEntry, hse, hm]

/-- Witness for `download_at_most_one_fetch_when_mp4_present` at a
concrete input where the mp4 already exists. -/
theorem download_at_most_one_fetch_witness :
    (downloadEntry (fun _ => some "mp4") ["v1.mp4"] "v1" = (["v1.mp4"], 0))
    ∧ ((downloadEntry (fun _ => some "mp4") ["v1.mp4"] "v1").2
        + (downloadEntry (fun _ => some "mp4")
            (downloadEntry (fun _ => some "mp4") ["v1.mp4"] "v1").1 "v1").2 ≤ 1) :=
  ⟨(download_at_most_one_fetch_when_mp4_present (fun _ => some "mp4") ["v1.mp4"] "v1").1
      (by decide),
   (download_at_most_one_fetch_when_mp4_present (fun _ => some "mp4") ["v1.mp4"] "v1").2
      (by decide)⟩

/-- C9: a batch entry's fetch is invoked exactly when
`videos_dir/{video_id}.mp4` is missing from the file set at that point
(no fetch iff the mp4 is present), and a file of the same video saved
under any other extension (as the download output template permits)
does not suppress a re-fetch: with `{video_id}.{ext}` present,
`ext ≠ "mp4"`, and the mp4 still missing, the fetch fires. -/
theorem download_fetch_exactly_when_mp4_missing
    (saveExt : String → Option String) (files : List String) (video_id ext : String) :
    ((downloadEntry saveExt files video_id).2 = 0
        ↔ files.contains (video_id ++ ".mp4") = true)
    ∧ (files.contains (video_id ++ ".mp4") = false → ext ≠ "mp4" →
        (downloadEntry saveExt ((video_id ++ "." ++ ext) :: files) video_id).2 = 1) := by
  constructor
  · by_cases hc : files.contains (video_id ++ ".mp4") = true
    · have hm : video_id ++ ".mp4" ∈ files := by simpa using hc
      simp [downloadEntry, hm]
    · have hm : video_id ++ ".mp4" ∉ files := by simpa using hc
      cases hse : saveExt video_id <;> simp [downloadEntry, hse, hm]
  · intro hmiss hne
    have hne2 : ¬ (video_id ++ ".mp4" = video_id ++ "." ++ ext) :=
      Ne.symm (ext_filename_ne video_id ext hne)
    have hmiss2 : video_id ++ ".mp4" ∉ files := by simpa using hmiss
    cases hse : saveExt video_id <;> simp [downloadEntry, hse, hne2, hmiss2]

/-- Witness for `download_fetch_exactly_when_mp4_missing` at a concrete
input: `v1.webm` present, `v1.mp4` missing — the fetch still fires. -/
theorem download_refetch_witness :
    ([] : List String).contains ("v1" ++ ".mp4") = false ∧ ("webm" : String) ≠ "mp4"
    ∧ (downloadEntry (fun _ => some "webm") (("v1" ++ "." ++ "webm") :: []) "v1").2 = 1 :=
  ⟨by decide, by decide,
   (download_fetch_exactly_when_mp4_missing (fun _ => some "webm") [] "v1" "webm").2
      (by decide) (by decide)⟩

/-- What `subprocess.run(cmd, check=True)` does for the OpenPose
command: exit code 0; non-zero exit, which `check=True` turns into a
`subprocess.CalledProcessError`; or failure to launch the binary at all
(missing executable), which raises `FileNotFoundError` — an `OSError`,
not a `CalledProcessError`. -/
inductive RunOutcome where
  | success : RunOutcome
  | nonzeroExit : RunOutcome
  | launchFailure : RunOutcome
  deriving DecidableEq, Repr

/-- `process_with_openpose` (`wasl_processor.py` lines 195-212): the
`except` clause catches only `subprocess.CalledProcessError` (logged,
function returns normally); an exception from failing to launch the
binary is not caught and propagates to the caller. -/
def process_with_openpose : RunOutcome → Except Unit Unit
  | .success => .ok ()
  | .nonzeroExit => .ok ()
  | .launchFailure => .error ()

/-- The per-clip loop of `process_dataset` (`wasl_processor.py` lines
248-249): run OpenPose on each clip in turn; an exception propagating
out of `process_with_openpose` aborts the loop.  Returns the number of
clips on which OpenPose was invoked and the final result. -/
def processClips : List RunOutcome → Nat × Except Unit Unit
  | [] => (0, .ok ())
  | o :: rest =>
    match process_with_openpose o with
    | .ok _ =>
      let r := processClips rest
      (r.1 + 1, r.2)
    | .error e => (1, .error e)

/-- C10: the per-clip batch finishes normally iff no clip's run failed
to launch the binary; a non-zero exit (`CalledProcessError`) is caught,
so with no launch failure EVERY clip is attempted regardless of
non-zero exits; and the first launch failure aborts the batch — exactly
the clips up to and including it are attempted, and the exception
propagates to the caller. -/
theorem openpose_isolates_only_nonzero_exit (outcomes : List RunOutcome) :
    ((processClips outcomes).2 = Except.ok ()
        ↔ RunOutcome.launchFailure ∉ outcomes)
    ∧ (RunOutcome.launchFailure ∉ outcomes →
        (processClips outcomes).1 = outcomes.length)
    ∧ (∀ pre post, outcomes = pre ++ RunOutcome.launchFailure :: post →
        RunOutcome.launchFailure ∉ pre →
        (processClips outcomes).1 = pre.length + 1) := by
  induction outcomes with
  | nil =>
    refine ⟨by simp [processClips], by simp [processClips], ?_⟩
    intro pre post heq
    exact absurd heq (by cases pre <;> simp)
  | cons o rest ih =>
    cases o with
    | success =>
      refine ⟨?_, ?_, ?_⟩
      · simp [processClips, process_with_openpose, ih.1]
      · intro h
        have hr : RunOutcome.launchFailure ∉ rest := fun hc =>
          h (List.mem_cons_of_mem _ hc)
        simp [processClips, process_with_openpose, ih.2.1 hr]
      · intro pre post heq hpre
        cases pre with
        | nil =>
          simp at heq
        | cons p pre =>
          have hp : p = RunOutcome.success := (List.cons.injEq _ _ _ _ ▸ heq).1.symm
          have hrest : rest = pre ++ RunOutcome.launchFailure :: post :=
            (List.cons.injEq _ _ _ _ ▸ heq).2
          have hpre2 : RunOutcome.launchFailure ∉ pre := fun hc =>
            hpre (List.mem_cons_of_mem _ hc)
          have := ih.2.2 pre post hrest hpre2
          simp [processClips, process_with_openpose, this]
    | nonzeroExit =>
      refine ⟨?_, ?_, ?_⟩
      · simp [processClips, process_with_openpose, ih.1]
      · intro h
        have hr : RunOutcome.launchFailure ∉ rest := fun hc =>
          h (List.mem_cons_of_mem _ hc)
        simp [processClips, process_with_openpose, ih.2.1 hr]
      · intro pre post heq hpre
        cases pre with
        | nil =>
          simp at heq
        | cons p pre =>
          have hrest : rest = pre ++ RunOutcome.launchFailure :: post :=
            (List.cons.injEq _ _ _ _ ▸ heq).2
          have hpre2 : RunOutcome.launchFailure ∉ pre := fun hc =>
            hpre (List.mem_cons_of_mem _ hc)
          have := ih.2.2 pre post hrest hpre2
          simp [processClips, process_with_openpose, this]
    | launchFailure =>
      refine ⟨?_, ?_, ?_⟩
      · simp [processClips, process_with_openpose]
      · intro h
        exact absurd (List.mem_cons_self _ _) h
      · intro pre post heq hpre
        cases pre with
        | nil => simp [processClips, process_with_openpose]
        | cons p pre =>
          have hp : p = RunOutcome.launchFailure :=
            (List.cons.injEq _ _ _ _ ▸ heq).1.symm
          exact absurd (hp ▸ List.mem_cons_self p pre) hpre

/-- Witness for `openpose_isolates_only_nonzero_exit`: with a non-zero
exit followed by a success both clips are attempted; with a launch
failure in second position only the first two clips are attempted. -/
theorem openpose_isolates_witness :
    ((processClips [RunOutcome.nonzeroExit, RunOutcome.success]).1 = 2)
    ∧ ((processClips
        [RunOutcome.success, RunOutcome.launchFailure, RunOutcome.success]).1 = 2) :=
  ⟨(openpose_isolates_only_nonzero_exit
      [RunOutcome.nonzeroExit, RunOutcome.success]).2.1 (by decide),
   (openpose_isolates_only_nonzero_exit
      [RunOutcome.success, RunOutcome.launchFailure, RunOutcome.success]).2.2
      [RunOutcome.success] [RunOutcome.success] rfl (by decide)⟩
